import Mathlib

/-
Verification of the tag-interpretation and record-reconstruction layer of an
RPM package-header decoder (a Go package), against its natural-language
specification.  The Go source (pkg/package.go) is embedded shallowly:

* byte buffers are `List Nat` (one element per byte);
* Go strings are byte sequences, so decoded strings are also `List Nat`;
* `binary.Read` over a big-endian reader is embedded as `readBE` / `readWords`;
* fallible helpers return `Except GoErr _`;
* the two exported operations `newPackage` and `getFileInfo` return a pair
  `(Option result, Option GoErr)`, mirroring the Go `(value, error)` return
  shape, so that "error implies no value" is a provable property rather than
  a typing artifact;
* a Go runtime index-out-of-range panic (the unchecked slice indexing in the
  file-zipping loop) is modelled as the failure outcome `GoErr.indexOutOfRange`.
-/

set_option autoImplicit false
set_option maxRecDepth 10000
set_option maxHeartbeats 1000000

namespace RpmDb

/-- Byte buffers: one natural number per byte. -/
abbrev Bytes := List Nat

/-- Failure outcomes of the decoder.  `invalidTagType t` stands for the
"invalid tag ..." errors (one per recognized tag `t`), `decodeError` for a
failed `binary.Read` (payload too short), and `indexOutOfRange` for the Go
runtime index-out-of-range panic raised by unchecked slice indexing. -/
inductive GoErr where
  | invalidTagType : Int → GoErr
  | decodeError : GoErr
  | indexOutOfRange : GoErr
deriving DecidableEq

/-- One RPM header index entry (input record).  `Typ` is the declared type
code (Go field `Info.Type`), `Length` the declared byte length. -/
structure IndexEntry where
  Tag : Int
  Typ : Int
  Data : Bytes
  Length : Nat
deriving DecidableEq

/-- Output record for one file owned by the package. -/
structure FileInfo where
  Path : Bytes
  Mode : Nat
  SHA256 : Bytes
  Size : Int
deriving DecidableEq

/-- Output record for one package; Go zero values are the field defaults. -/
structure PackageInfo where
  Epoch : Int := 0
  Name : Bytes := []
  Version : Bytes := []
  Release : Bytes := []
  Arch : Bytes := []
  SourceRpm : Bytes := []
  Size : Int := 0
  License : Bytes := []
  Vendor : Bytes := []
  Files : List FileInfo := []
deriving DecidableEq

/-- The byte string "(none)", the sentinel meaning "field absent". -/
def noneBytes : Bytes := [40, 110, 111, 110, 101, 41]

/-- Big-endian value of a byte list (`binary.BigEndian` accumulation). -/
def beVal (l : Bytes) : Nat :=
  l.foldl (fun acc b => acc * 256 + b) 0

/-- Reinterpret an unsigned 32-bit value as a signed int32. -/
def toSigned32 (v : Nat) : Int :=
  if v < 2147483648 then (v : Int) else (v : Int) - 4294967296

/-- Read one big-endian `w`-byte word from the front of a buffer; fails when
fewer than `w` bytes remain (the `io.ReadFull` behaviour inside
`binary.Read`). -/
def readBE (w : Nat) (data : Bytes) : Option (Nat × Bytes) :=
  if data.length < w then none else some (beVal (data.take w), data.drop w)

/-- Read `n` consecutive big-endian `w`-byte words (`binary.Read` into a
slice of `n` fixed-width elements). -/
def readWords (w : Nat) : Nat → Bytes → Option (List Nat)
  | 0, _ => some []
  | Nat.succ m, data =>
    match readBE w data with
    | none => none
    | some (v, rest) => (readWords w m rest).map (fun vs => v :: vs)

/-- Go `parseString`: `bytes.TrimRight(data, "\x00")` — strip trailing null
bytes. -/
def parseString (data : Bytes) : Bytes :=
  (data.reverse.dropWhile (fun b => b == 0)).reverse

/-- Split a byte buffer at null bytes (Go `strings.Split(string(data), "\x00")`;
always returns a non-empty list). -/
def splitOnZero : Bytes → List Bytes
  | [] => [[]]
  | b :: rest =>
    if b = 0 then [] :: splitOnZero rest
    else
      match splitOnZero rest with
      | [] => [[b]]
      | g :: gs => (b :: g) :: gs

/-- Go `parseStringArray`: split on null bytes and drop a final empty
element when present. -/
def parseStringArray (data : Bytes) : List Bytes :=
  let elements := splitOnZero data
  if elements.getLast? = some [] then elements.dropLast else elements

/-- Go `parseInt32`: read one big-endian signed 32-bit integer from the
front of the buffer. -/
def parseInt32 (data : Bytes) : Except GoErr Int :=
  match readBE 4 data with
  | none => .error .decodeError
  | some (v, _) => .ok (toSigned32 v)

/-- Go `parseInt32Array`: `arraySize / 4` consecutive big-endian signed
32-bit integers. -/
def parseInt32Array (data : Bytes) (arraySize : Nat) : Except GoErr (List Int) :=
  match readWords 4 (arraySize / 4) data with
  | none => .error .decodeError
  | some vs => .ok (vs.map toSigned32)

/-- Go `parseUInt16Array`: `arraySize / 2` consecutive big-endian unsigned
16-bit integers. -/
def parseUInt16Array (data : Bytes) (arraySize : Nat) : Except GoErr (List Nat) :=
  match readWords 2 (arraySize / 2) data with
  | none => .error .decodeError
  | some vs => .ok vs

/-- The body of the `switch` in `newPackage` for one entry: validate the
declared type of each recognized scalar tag and assign the decoded value to
the corresponding field.  Unrecognized tags leave the record unchanged. -/
def applyScalar (pkg : PackageInfo) (e : IndexEntry) : Except GoErr PackageInfo :=
  if e.Tag = 1000 then
    if e.Typ ≠ 6 then .error (.invalidTagType 1000)
    else .ok { pkg with Name := parseString e.Data }
  else if e.Tag = 1003 then
    if e.Typ ≠ 4 then .error (.invalidTagType 1003)
    else
      match parseInt32 e.Data with
      | .error er => .error er
      | .ok v => .ok { pkg with Epoch := v }
  else if e.Tag = 1001 then
    if e.Typ ≠ 6 then .error (.invalidTagType 1001)
    else .ok { pkg with Version := parseString e.Data }
  else if e.Tag = 1002 then
    if e.Typ ≠ 6 then .error (.invalidTagType 1002)
    else .ok { pkg with Release := parseString e.Data }
  else if e.Tag = 1022 then
    if e.Typ ≠ 6 then .error (.invalidTagType 1022)
    else .ok { pkg with Arch := parseString e.Data }
  else if e.Tag = 1044 then
    if e.Typ ≠ 6 then .error (.invalidTagType 1044)
    else
      let s := parseString e.Data
      .ok { pkg with SourceRpm := if s = noneBytes then [] else s }
  else if e.Tag = 1014 then
    if e.Typ ≠ 6 then .error (.invalidTagType 1014)
    else
      let s := parseString e.Data
      .ok { pkg with License := if s = noneBytes then [] else s }
  else if e.Tag = 1011 then
    if e.Typ ≠ 6 then .error (.invalidTagType 1011)
    else
      let s := parseString e.Data
      .ok { pkg with Vendor := if s = noneBytes then [] else s }
  else if e.Tag = 1009 then
    if e.Typ ≠ 4 then .error (.invalidTagType 1009)
    else
      match parseInt32 e.Data with
      | .error er => .error er
      | .ok v => .ok { pkg with Size := v }
  else .ok pkg

/-- The six file-metadata arrays collected by the first loop of
`getFileInfo`; `none` models a Go nil slice (tag never seen). -/
structure FileArrays where
  allBasenames : Option (List Bytes) := none
  allDirs : Option (List Bytes) := none
  allDirIndexes : Option (List Int) := none
  allFileDigests : Option (List Bytes) := none
  allFileModes : Option (List Nat) := none
  allFileSizes : Option (List Int) := none
deriving DecidableEq

/-- The body of the `switch` in `getFileInfo` for one entry: validate the
declared type of each recognized file tag and store the decoded array. -/
def collectStep (st : FileArrays) (e : IndexEntry) : Except GoErr FileArrays :=
  if e.Tag = 1028 then
    if e.Typ ≠ 4 then .error (.invalidTagType 1028)
    else
      match parseInt32Array e.Data e.Length with
      | .error er => .error er
      | .ok vs => .ok { st with allFileSizes := some vs }
  else if e.Tag = 1035 then
    if e.Typ ≠ 8 then .error (.invalidTagType 1035)
    else .ok { st with allFileDigests := some (parseStringArray e.Data) }
  else if e.Tag = 1030 then
    if e.Typ ≠ 3 then .error (.invalidTagType 1030)
    else
      match parseUInt16Array e.Data e.Length with
      | .error er => .error er
      | .ok vs => .ok { st with allFileModes := some vs }
  else if e.Tag = 1117 then
    if e.Typ ≠ 8 then .error (.invalidTagType 1117)
    else .ok { st with allBasenames := some (parseStringArray e.Data) }
  else if e.Tag = 1118 then
    if e.Typ ≠ 8 then .error (.invalidTagType 1118)
    else .ok { st with allDirs := some (parseStringArray e.Data) }
  else if e.Tag = 1116 then
    if e.Typ ≠ 4 then .error (.invalidTagType 1116)
    else
      match parseInt32Array e.Data e.Length with
      | .error er => .error er
      | .ok vs => .ok { st with allDirIndexes := some vs }
  else .ok st

/-- A Go `for ... range` loop whose body may return early with an error,
threading a state through the remaining iterations. -/
def foldE {σ : Type} (f : σ → IndexEntry → Except GoErr σ) : σ → List IndexEntry → Except GoErr σ
  | s, [] => .ok s
  | s, e :: rest =>
    match f s e with
    | .error er => .error er
    | .ok s' => foldE f s' rest

/-- The scalar-field loop of `newPackage`. -/
def scalarPass (pkg : PackageInfo) (entries : List IndexEntry) : Except GoErr PackageInfo :=
  foldE applyScalar pkg entries

/-- The collection loop of `getFileInfo`. -/
def collectFileArrays (st : FileArrays) (entries : List IndexEntry) : Except GoErr FileArrays :=
  foldE collectStep st entries

/-- The zipping loop of `getFileInfo`: one iteration per base name, with
unchecked indexing of `allDirIndexes` (by the loop counter) and of `allDirs`
(by the signed directory index); an out-of-range access is the Go runtime
panic, modelled as `GoErr.indexOutOfRange`.  Digest, mode and size fall back
to zero values when the corresponding array is nil or too short. -/
def zipFiles (dirs : List Bytes) (idxs : List Int) (dg : Option (List Bytes))
    (md : Option (List Nat)) (sz : Option (List Int)) : Nat → List Bytes → Except GoErr (List FileInfo)
  | _, [] => .ok []
  | i, name :: rest =>
    match idxs.get? i with
    | none => .error .indexOutOfRange
    | some j =>
      if j < 0 then .error .indexOutOfRange
      else
        match dirs.get? j.toNat with
        | none => .error .indexOutOfRange
        | some d =>
          match zipFiles dirs idxs dg md sz (i + 1) rest with
          | .error er => .error er
          | .ok files =>
            .ok ({ Path := d ++ name,
                   Mode := (md.bind fun l => l.get? i).getD 0,
                   SHA256 := (dg.bind fun l => l.get? i).getD [],
                   Size := (sz.bind fun l => l.get? i).getD 0 } :: files)

/-- Go `getFileInfo`, in the Go `(value, error)` return shape: collect the
six arrays, then zip them when both structural arrays (dir names, dir
indexes) are present; otherwise return an empty file list and no error. -/
def getFileInfo (entries : List IndexEntry) : Option (List FileInfo) × Option GoErr :=
  match collectFileArrays {} entries with
  | .error er => (none, some er)
  | .ok st =>
    match st.allDirs, st.allDirIndexes with
    | some dirs, some idxs =>
      match zipFiles dirs idxs st.allFileDigests st.allFileModes st.allFileSizes 0 (st.allBasenames.getD []) with
      | .error er => (none, some er)
      | .ok files => (some files, none)
    | _, _ => (some [], none)

/-- Go `newPackage`, in the Go `(value, error)` return shape: the scalar
pass over all entries, then the file pass; any failure is returned with a
nil package record. -/
def newPackage (entries : List IndexEntry) : Option PackageInfo × Option GoErr :=
  match scalarPass {} entries with
  | .error er => (none, some er)
  | .ok pkg =>
    match getFileInfo entries with
    | (_, some er) => (none, some er)
    | (files, none) => (some { pkg with Files := files.getD [] }, none)

/-! Tag catalog and well-formedness -/

/-- The nine recognized scalar package tags, in the order of the `switch` in
`newPackage`. -/
def scalarTags : List Int := [1000, 1003, 1001, 1002, 1022, 1044, 1014, 1011, 1009]

/-- The six recognized file-metadata tags, in the order of the `switch` in
`getFileInfo`. -/
def fileTags : List Int := [1028, 1035, 1030, 1117, 1118, 1116]

/-- All fifteen recognized tags. -/
def recognizedTags : List Int := scalarTags ++ fileTags

/-- The catalog's expected type code for each recognized tag (INT32 = 4,
INT16 = 3, STRING-ARRAY = 8, STRING = 6). -/
def expectedTyp (t : Int) : Int :=
  if t = 1003 ∨ t = 1009 ∨ t = 1028 ∨ t = 1116 then 4
  else if t = 1030 then 3
  else if t = 1035 ∨ t = 1117 ∨ t = 1118 then 8
  else 6

/-- An entry is well-formed when processing it (in whichever pass recognizes
its tag) raises no error: the declared type matches the catalog and, for the
fixed-width decoders, the payload is long enough for the declared length. -/
def wellFormed (e : IndexEntry) : Prop :=
  ((e.Tag = 1000 ∨ e.Tag = 1001 ∨ e.Tag = 1002 ∨ e.Tag = 1022 ∨ e.Tag = 1044 ∨ e.Tag = 1014 ∨ e.Tag = 1011) → e.Typ = 6) ∧
  ((e.Tag = 1003 ∨ e.Tag = 1009) → (e.Typ = 4 ∧ 4 ≤ e.Data.length)) ∧
  ((e.Tag = 1028 ∨ e.Tag = 1116) → (e.Typ = 4 ∧ 4 * (e.Length / 4) ≤ e.Data.length)) ∧
  (e.Tag = 1030 → (e.Typ = 3 ∧ 2 * (e.Length / 2) ≤ e.Data.length)) ∧
  ((e.Tag = 1035 ∨ e.Tag = 1117 ∨ e.Tag = 1118) → e.Typ = 8)

instance : DecidablePred wellFormed := fun e => by
  unfold wellFormed
  infer_instance

/-! Closed form of the fixed-width array readers -/

theorem readWords_eq (w : Nat) (_hw : 0 < w) (n : Nat) : ∀ (data : Bytes),
    readWords w n data =
      if w * n ≤ data.length then
        some ((List.range n).map fun i => beVal ((data.drop (w * i)).take w))
      else none := by
  induction n with
  | zero => intro data; simp [readWords]
  | succ m ih =>
    intro data
    simp only [readWords, readBE]
    by_cases h1 : data.length < w
    · have hgt : ¬ w * (m + 1) ≤ data.length := by
        have : w * (m + 1) = w * m + w := Nat.mul_succ w m
        omega
      simp [h1, hgt]
    · push_neg at h1
      rw [if_neg (by omega : ¬ data.length < w)]
      dsimp only
      rw [ih (data.drop w)]
      have hlen : (data.drop w).length = data.length - w := List.length_drop w data
      have hms : w * (m + 1) = w * m + w := Nat.mul_succ w m
      by_cases h2 : w * (m + 1) ≤ data.length
      · rw [if_pos (by omega : w * m ≤ (data.drop w).length), if_pos h2]
        simp only [Option.map_some']
        congr 1
        rw [List.range_succ_eq_map, List.map_cons, List.map_map]
        congr 1
        apply List.map_congr_left
        intro a _
        simp only [Function.comp_apply]
        rw [List.drop_drop]
        have hswap : w + w * a = w * Nat.succ a := by
          rw [Nat.mul_succ, Nat.add_comm]
        rw [hswap]
      · rw [if_neg (by omega : ¬ w * m ≤ (data.drop w).length), if_neg h2]
        rfl

theorem parseInt32Array_eq (data : Bytes) (arraySize : Nat) :
    parseInt32Array data arraySize =
      if data.length < 4 * (arraySize / 4) then .error .decodeError
      else .ok ((List.range (arraySize / 4)).map fun i => toSigned32 (beVal ((data.drop (4 * i)).take 4))) := by
  simp only [parseInt32Array]
  rw [readWords_eq 4 (by norm_num)]
  by_cases h : 4 * (arraySize / 4) ≤ data.length
  · rw [if_pos h, if_neg (by omega)]
    simp
  · rw [if_neg h, if_pos (by omega)]

theorem parseUInt16Array_eq (data : Bytes) (arraySize : Nat) :
    parseUInt16Array data arraySize =
      if data.length < 2 * (arraySize / 2) then .error .decodeError
      else .ok ((List.range (arraySize / 2)).map fun i => beVal ((data.drop (2 * i)).take 2)) := by
  simp only [parseUInt16Array]
  rw [readWords_eq 2 (by norm_num)]
  by_cases h : 2 * (arraySize / 2) ≤ data.length
  · rw [if_pos h, if_neg (by omega)]
  · rw [if_neg h, if_pos (by omega)]

theorem parseInt32_ok (data : Bytes) (h : 4 ≤ data.length) :
    parseInt32 data = .ok (toSigned32 (beVal (data.take 4))) := by
  simp [parseInt32, readBE, if_neg (by omega : ¬ data.length < 4)]

/-! Generic loop lemmas -/

theorem foldE_append {σ : Type} (f : σ → IndexEntry → Except GoErr σ) (s : σ)
    (l₁ l₂ : List IndexEntry) :
    foldE f s (l₁ ++ l₂) =
      match foldE f s l₁ with
      | .error er => .error er
      | .ok s' => foldE f s' l₂ := by
  induction l₁ generalizing s with
  | nil => simp [foldE]
  | cons e rest ih =>
    simp only [List.cons_append, foldE]
    cases f s e <;> simp [ih]

theorem foldE_cons_ok {σ : Type} (f : σ → IndexEntry → Except GoErr σ) (s : σ)
    (e : IndexEntry) (l : List IndexEntry) (s'' : σ)
    (h : foldE f s (e :: l) = .ok s'') :
    ∃ s', f s e = .ok s' ∧ foldE f s' l = .ok s'' := by
  rw [foldE] at h
  cases hfe : f s e with
  | error er => rw [hfe] at h; exact absurd h (by simp)
  | ok s' => rw [hfe] at h; exact ⟨s', rfl, h⟩

theorem foldE_ok_of_all {σ : Type} (f : σ → IndexEntry → Except GoErr σ)
    (l : List IndexEntry) (h : ∀ e ∈ l, ∀ s : σ, ∃ s', f s e = .ok s') :
    ∀ s : σ, ∃ s', foldE f s l = .ok s' := by
  induction l with
  | nil => intro s; exact ⟨s, rfl⟩
  | cons e rest ih =>
    intro s
    obtain ⟨s', hs'⟩ := h e (List.mem_cons_self e rest) s
    obtain ⟨s'', hs''⟩ := ih (fun x hx p => h x (List.mem_cons_of_mem e hx) p) s'
    exact ⟨s'', by rw [foldE, hs']; exact hs''⟩

theorem foldE_preserve {σ α : Type} (f : σ → IndexEntry → Except GoErr σ) (proj : σ → α)
    (P : IndexEntry → Prop)
    (hstep : ∀ s s' e, P e → f s e = .ok s' → proj s' = proj s) :
    ∀ (l : List IndexEntry) (s s' : σ), (∀ x ∈ l, P x) → foldE f s l = .ok s' → proj s' = proj s := by
  intro l
  induction l with
  | nil => intro s s' _ h; rw [foldE] at h; cases h; rfl
  | cons e rest ih =>
    intro s s' hP h
    obtain ⟨s₁, hs₁, hrest⟩ := foldE_cons_ok f s e rest s' h
    rw [ih s₁ s' (fun x hx => hP x (List.mem_cons_of_mem e hx)) hrest]
    exact hstep s s₁ e (hP e (List.mem_cons_self e rest)) hs₁

/-! Scalar-field bookkeeping: which field a scalar tag selects, and the
value the scalar pass assigns for an entry -/

/-- The `PackageInfo` field selected by a recognized scalar tag (string
fields on the left of the sum, integer fields on the right); `none` for
unrecognized tags. -/
def fieldOf (t : Int) (pkg : PackageInfo) : Option (Bytes ⊕ Int) :=
  if t = 1000 then some (Sum.inl pkg.Name)
  else if t = 1001 then some (Sum.inl pkg.Version)
  else if t = 1002 then some (Sum.inl pkg.Release)
  else if t = 1022 then some (Sum.inl pkg.Arch)
  else if t = 1044 then some (Sum.inl pkg.SourceRpm)
  else if t = 1014 then some (Sum.inl pkg.License)
  else if t = 1011 then some (Sum.inl pkg.Vendor)
  else if t = 1003 then some (Sum.inr pkg.Epoch)
  else if t = 1009 then some (Sum.inr pkg.Size)
  else none

/-- The value the scalar pass assigns for an entry: the trimmed string
(normalized for the three sentinel fields), or the decoded int32. -/
def assignedValue (e : IndexEntry) : Option (Bytes ⊕ Int) :=
  if e.Tag = 1000 ∨ e.Tag = 1001 ∨ e.Tag = 1002 ∨ e.Tag = 1022 then
    some (Sum.inl (parseString e.Data))
  else if e.Tag = 1044 ∨ e.Tag = 1014 ∨ e.Tag = 1011 then
    some (Sum.inl (if parseString e.Data = noneBytes then [] else parseString e.Data))
  else if e.Tag = 1003 ∨ e.Tag = 1009 then
    match parseInt32 e.Data with
    | .ok v => some (Sum.inr v)
    | .error _ => none
  else none

theorem fieldOf_update_files (t : Int) (pkg : PackageInfo) (fs : List FileInfo) :
    fieldOf t { pkg with Files := fs } = fieldOf t pkg := rfl

/-! Case analysis of the scalar step -/

theorem applyScalar_not_scalar (pkg : PackageInfo) (e : IndexEntry) (h : e.Tag ∉ scalarTags) :
    applyScalar pkg e = .ok pkg := by
  simp only [scalarTags, List.mem_cons, List.not_mem_nil, or_false, not_or] at h
  obtain ⟨h1, h2, h3, h4, h5, h6, h7, h8, h9⟩ := h
  simp [applyScalar, h1, h2, h3, h4, h5, h6, h7, h8, h9]

theorem applyScalar_badTyp (pkg : PackageInfo) (e : IndexEntry)
    (hmem : e.Tag ∈ scalarTags) (hbad : e.Typ ≠ expectedTyp e.Tag) :
    applyScalar pkg e = .error (.invalidTagType e.Tag) := by
  simp only [scalarTags, List.mem_cons, List.not_mem_nil, or_false] at hmem
  rcases hmem with h | h | h | h | h | h | h | h | h <;>
    rw [h] at hbad ⊢ <;>
    norm_num [expectedTyp] at hbad <;>
    simp [applyScalar, h, hbad]

theorem applyScalar_ok_of_wellFormed (e : IndexEntry) (hwf : wellFormed e) (pkg : PackageInfo) :
    ∃ pkg', applyScalar pkg e = .ok pkg' := by
  obtain ⟨hstr, hint, _hfs, _hfm, _hsa⟩ := hwf
  by_cases h0 : e.Tag = 1000
  · exact ⟨_, by simp [applyScalar, h0, hstr (Or.inl h0)]; rfl⟩
  by_cases h3 : e.Tag = 1003
  · obtain ⟨ht, hlen⟩ := hint (Or.inl h3)
    exact ⟨_, by simp [applyScalar, h0, h3, ht, parseInt32_ok e.Data hlen]; rfl⟩
  by_cases h1 : e.Tag = 1001
  · exact ⟨_, by simp [applyScalar, h0, h3, h1, hstr (Or.inr (Or.inl h1))]; rfl⟩
  by_cases h2 : e.Tag = 1002
  · exact ⟨_, by simp [applyScalar, h0, h3, h1, h2, hstr (Or.inr (Or.inr (Or.inl h2)))]; rfl⟩
  by_cases h22 : e.Tag = 1022
  · exact ⟨_, by simp [applyScalar, h0, h3, h1, h2, h22,
      hstr (Or.inr (Or.inr (Or.inr (Or.inl h22))))]; rfl⟩
  by_cases h44 : e.Tag = 1044
  · exact ⟨_, by simp [applyScalar, h0, h3, h1, h2, h22, h44,
      hstr (Or.inr (Or.inr (Or.inr (Or.inr (Or.inl h44)))))]; rfl⟩
  by_cases h14 : e.Tag = 1014
  · exact ⟨_, by simp [applyScalar, h0, h3, h1, h2, h22, h44, h14,
      hstr (Or.inr (Or.inr (Or.inr (Or.inr (Or.inr (Or.inl h14))))))]; rfl⟩
  by_cases h11 : e.Tag = 1011
  · exact ⟨_, by simp [applyScalar, h0, h3, h1, h2, h22, h44, h14, h11,
      hstr (Or.inr (Or.inr (Or.inr (Or.inr (Or.inr (Or.inr h11))))))]; rfl⟩
  by_cases h9 : e.Tag = 1009
  · obtain ⟨ht, hlen⟩ := hint (Or.inr h9)
    exact ⟨_, by simp [applyScalar, h0, h3, h1, h2, h22, h44, h14, h11, h9, ht,
      parseInt32_ok e.Data hlen]; rfl⟩
  exact ⟨pkg, by simp [applyScalar, h0, h3, h1, h2, h22, h44, h14, h11, h9]⟩

/-- Characterization of a successful scalar step: an unrecognized tag leaves
the record unchanged; a recognized scalar tag sets exactly its own field to
the assigned value and leaves every other field unchanged. -/
theorem applyScalar_cases (pkg pkg' : PackageInfo) (e : IndexEntry)
    (h : applyScalar pkg e = .ok pkg') :
    (e.Tag ∉ scalarTags ∧ pkg' = pkg) ∨
    (e.Tag ∈ scalarTags ∧ fieldOf e.Tag pkg' = assignedValue e ∧
      ∀ t, t ≠ e.Tag → fieldOf t pkg' = fieldOf t pkg) := by
  unfold applyScalar at h
  by_cases h0 : e.Tag = 1000
  · rw [if_pos h0] at h
    split_ifs at h
    simp only [Except.ok.injEq] at h
    subst h
    refine Or.inr ⟨by rw [h0]; decide, by norm_num [fieldOf, assignedValue, h0], ?_⟩
    intro t ht
    rw [h0] at ht
    simp only [fieldOf]
    rw [if_neg ht, if_neg ht]
  rw [if_neg h0] at h
  by_cases h3 : e.Tag = 1003
  · rw [if_pos h3] at h
    split_ifs at h
    cases hp : parseInt32 e.Data with
    | error er => rw [hp] at h; exact Except.noConfusion h
    | ok v =>
      rw [hp] at h
      simp only [Except.ok.injEq] at h
      subst h
      refine Or.inr ⟨by rw [h3]; decide,
        by norm_num [fieldOf, assignedValue, h3, hp], ?_⟩
      intro t ht
      rw [h3] at ht
      simp only [fieldOf]
      rw [if_neg ht, if_neg ht]
  rw [if_neg h3] at h
  by_cases h1 : e.Tag = 1001
  · rw [if_pos h1] at h
    split_ifs at h
    simp only [Except.ok.injEq] at h
    subst h
    refine Or.inr ⟨by rw [h1]; decide, by norm_num [fieldOf, assignedValue, h1], ?_⟩
    intro t ht
    rw [h1] at ht
    simp only [fieldOf]
    rw [if_neg ht, if_neg ht]
  rw [if_neg h1] at h
  by_cases h2 : e.Tag = 1002
  · rw [if_pos h2] at h
    split_ifs at h
    simp only [Except.ok.injEq] at h
    subst h
    refine Or.inr ⟨by rw [h2]; decide, by norm_num [fieldOf, assignedValue, h2], ?_⟩
    intro t ht
    rw [h2] at ht
    simp only [fieldOf]
    rw [if_neg ht, if_neg ht]
  rw [if_neg h2] at h
  by_cases h22 : e.Tag = 1022
  · rw [if_pos h22] at h
    split_ifs at h
    simp only [Except.ok.injEq] at h
    subst h
    refine Or.inr ⟨by rw [h22]; decide, by norm_num [fieldOf, assignedValue, h22], ?_⟩
    intro t ht
    rw [h22] at ht
    simp only [fieldOf]
    rw [if_neg ht, if_neg ht]
  rw [if_neg h22] at h
  by_cases h44 : e.Tag = 1044
  · rw [if_pos h44] at h
    split_ifs at h
    simp only [Except.ok.injEq] at h
    subst h
    refine Or.inr ⟨by rw [h44]; decide, by norm_num [fieldOf, assignedValue, h44], ?_⟩
    intro t ht
    rw [h44] at ht
    simp only [fieldOf]
    rw [if_neg ht, if_neg ht]
  rw [if_neg h44] at h
  by_cases h14 : e.Tag = 1014
  · rw [if_pos h14] at h
    split_ifs at h
    simp only [Except.ok.injEq] at h
    subst h
    refine Or.inr ⟨by rw [h14]; decide, by norm_num [fieldOf, assignedValue, h14], ?_⟩
    intro t ht
    rw [h14] at ht
    simp only [fieldOf]
    rw [if_neg ht, if_neg ht]
  rw [if_neg h14] at h
  by_cases h11 : e.Tag = 1011
  · rw [if_pos h11] at h
    split_ifs at h
    simp only [Except.ok.injEq] at h
    subst h
    refine Or.inr ⟨by rw [h11]; decide, by norm_num [fieldOf, assignedValue, h11], ?_⟩
    intro t ht
    rw [h11] at ht
    simp only [fieldOf]
    rw [if_neg ht, if_neg ht]
  rw [if_neg h11] at h
  by_cases h9 : e.Tag = 1009
  · rw [if_pos h9] at h
    split_ifs at h
    cases hp : parseInt32 e.Data with
    | error er => rw [hp] at h; exact Except.noConfusion h
    | ok v =>
      rw [hp] at h
      simp only [Except.ok.injEq] at h
      subst h
      refine Or.inr ⟨by rw [h9]; decide,
        by norm_num [fieldOf, assignedValue, h9, hp], ?_⟩
      intro t ht
      rw [h9] at ht
      simp only [fieldOf]
      rw [if_neg ht, if_neg ht]
  rw [if_neg h9] at h
  simp only [Except.ok.injEq] at h
  exact Or.inl ⟨by simp [scalarTags, h0, h3, h1, h2, h22, h44, h14, h11, h9], h.symm⟩

/-! Case analysis of the file-collection step -/

theorem parseInt32Array_ok (data : Bytes) (n : Nat) (h : 4 * (n / 4) ≤ data.length) :
    parseInt32Array data n =
      .ok ((List.range (n / 4)).map fun i => toSigned32 (beVal ((data.drop (4 * i)).take 4))) := by
  rw [parseInt32Array_eq, if_neg (by omega)]

theorem parseUInt16Array_ok (data : Bytes) (n : Nat) (h : 2 * (n / 2) ≤ data.length) :
    parseUInt16Array data n =
      .ok ((List.range (n / 2)).map fun i => beVal ((data.drop (2 * i)).take 2)) := by
  rw [parseUInt16Array_eq, if_neg (by omega)]

theorem collectStep_not_file (st : FileArrays) (e : IndexEntry) (h : e.Tag ∉ fileTags) :
    collectStep st e = .ok st := by
  simp only [fileTags, List.mem_cons, List.not_mem_nil, or_false, not_or] at h
  obtain ⟨h1, h2, h3, h4, h5, h6⟩ := h
  simp [collectStep, h1, h2, h3, h4, h5, h6]

theorem collectStep_badTyp (st : FileArrays) (e : IndexEntry)
    (hmem : e.Tag ∈ fileTags) (hbad : e.Typ ≠ expectedTyp e.Tag) :
    collectStep st e = .error (.invalidTagType e.Tag) := by
  simp only [fileTags, List.mem_cons, List.not_mem_nil, or_false] at hmem
  rcases hmem with h | h | h | h | h | h <;>
    rw [h] at hbad ⊢ <;>
    norm_num [expectedTyp] at hbad <;>
    simp [collectStep, h, hbad]

theorem collectStep_ok_of_wellFormed (e : IndexEntry) (hwf : wellFormed e) (st : FileArrays) :
    ∃ st', collectStep st e = .ok st' := by
  obtain ⟨_hstr, _hint, hfs, hfm, hsa⟩ := hwf
  by_cases h28 : e.Tag = 1028
  · obtain ⟨ht, hlen⟩ := hfs (Or.inl h28)
    exact ⟨_, by simp [collectStep, h28, ht, parseInt32Array_ok e.Data e.Length hlen]; rfl⟩
  by_cases h35 : e.Tag = 1035
  · exact ⟨_, by simp [collectStep, h28, h35, hsa (Or.inl h35)]; rfl⟩
  by_cases h30 : e.Tag = 1030
  · obtain ⟨ht, hlen⟩ := hfm h30
    exact ⟨_, by simp [collectStep, h28, h35, h30, ht,
      parseUInt16Array_ok e.Data e.Length hlen]; rfl⟩
  by_cases h17 : e.Tag = 1117
  · exact ⟨_, by simp [collectStep, h28, h35, h30, h17, hsa (Or.inr (Or.inl h17))]; rfl⟩
  by_cases h18 : e.Tag = 1118
  · exact ⟨_, by simp [collectStep, h28, h35, h30, h17, h18, hsa (Or.inr (Or.inr h18))]; rfl⟩
  by_cases h16 : e.Tag = 1116
  · obtain ⟨ht, hlen⟩ := hfs (Or.inr h16)
    exact ⟨_, by simp [collectStep, h28, h35, h30, h17, h18, h16, ht,
      parseInt32Array_ok e.Data e.Length hlen]; rfl⟩
  exact ⟨st, by simp [collectStep, h28, h35, h30, h17, h18, h16]⟩

/-- A successful collection step only changes the array selected by the
entry's tag; in particular the two structural arrays are untouched by
entries with other tags. -/
theorem collectStep_frame (st st' : FileArrays) (e : IndexEntry)
    (h : collectStep st e = .ok st') :
    (e.Tag ≠ 1118 → st'.allDirs = st.allDirs) ∧
    (e.Tag ≠ 1116 → st'.allDirIndexes = st.allDirIndexes) := by
  unfold collectStep at h
  by_cases h28 : e.Tag = 1028
  · rw [if_pos h28] at h
    split_ifs at h
    cases hp : parseInt32Array e.Data e.Length with
    | error er => rw [hp] at h; exact Except.noConfusion h
    | ok vs =>
      rw [hp] at h
      simp only [Except.ok.injEq] at h
      subst h
      exact ⟨fun _ => rfl, fun _ => rfl⟩
  rw [if_neg h28] at h
  by_cases h35 : e.Tag = 1035
  · rw [if_pos h35] at h
    split_ifs at h
    simp only [Except.ok.injEq] at h
    subst h
    exact ⟨fun _ => rfl, fun _ => rfl⟩
  rw [if_neg h35] at h
  by_cases h30 : e.Tag = 1030
  · rw [if_pos h30] at h
    split_ifs at h
    cases hp : parseUInt16Array e.Data e.Length with
    | error er => rw [hp] at h; exact Except.noConfusion h
    | ok vs =>
      rw [hp] at h
      simp only [Except.ok.injEq] at h
      subst h
      exact ⟨fun _ => rfl, fun _ => rfl⟩
  rw [if_neg h30] at h
  by_cases h17 : e.Tag = 1117
  · rw [if_pos h17] at h
    split_ifs at h
    simp only [Except.ok.injEq] at h
    subst h
    exact ⟨fun _ => rfl, fun _ => rfl⟩
  rw [if_neg h17] at h
  by_cases h18 : e.Tag = 1118
  · rw [if_pos h18] at h
    split_ifs at h
    simp only [Except.ok.injEq] at h
    subst h
    exact ⟨fun hne => absurd h18 hne, fun _ => rfl⟩
  rw [if_neg h18] at h
  by_cases h16 : e.Tag = 1116
  · rw [if_pos h16] at h
    split_ifs at h
    cases hp : parseInt32Array e.Data e.Length with
    | error er => rw [hp] at h; exact Except.noConfusion h
    | ok vs =>
      rw [hp] at h
      simp only [Except.ok.injEq] at h
      subst h
      exact ⟨fun _ => rfl, fun hne => absurd h16 hne⟩
  rw [if_neg h16] at h
  simp only [Except.ok.injEq] at h
  subst h
  exact ⟨fun _ => rfl, fun _ => rfl⟩

/-! The zipping loop -/

theorem get?_eq_some_getD {α : Type} (l : List α) (n : Nat) (d : α) (h : n < l.length) :
    l.get? n = some (l.getD n d) := by
  rw [List.getD_eq_getElem?_getD, List.get?_eq_getElem?]
  cases hx : l[n]? with
  | none => rw [List.getElem?_eq_none_iff] at hx; omega
  | some x => rfl

theorem optBind_getD {α : Type} (o : Option (List α)) (i : Nat) (d : α) :
    (o.bind fun l => l[i]?).getD d = (o.getD []).getD i d := by
  cases o <;> simp [List.getD_eq_getElem?_getD]

/-- The loop iteration at position `m` hits an out-of-range index: either the
loop counter exceeds the directory-index array, or the (possibly negative)
directory index is outside the directory-name table. -/
def badAt (dirs : List Bytes) (idxs : List Int) (m : Nat) : Prop :=
  match idxs.get? m with
  | none => True
  | some j => j < 0 ∨ dirs.get? j.toNat = none

/-- If any iteration of the zipping loop hits an out-of-range index, the
loop aborts with the index-out-of-range outcome. -/
theorem zipFiles_err (dirs : List Bytes) (idxs : List Int) (dg : Option (List Bytes))
    (md : Option (List Nat)) (sz : Option (List Int)) (names : List Bytes) :
    ∀ (i₀ : Nat), (∃ k, k < names.length ∧ badAt dirs idxs (i₀ + k)) →
    zipFiles dirs idxs dg md sz i₀ names = .error .indexOutOfRange := by
  induction names with
  | nil =>
    intro i₀ h
    obtain ⟨k, hk, _⟩ := h
    simp at hk
  | cons name rest ih =>
    intro i₀ h
    obtain ⟨k, hk, hbad⟩ := h
    by_cases hb0 : badAt dirs idxs i₀
    · cases hj : idxs.get? i₀ with
      | none => simp only [zipFiles, hj]
      | some j =>
        have hb0' : j < 0 ∨ dirs.get? j.toNat = none := by
          simpa only [badAt, hj] using hb0
        simp only [zipFiles, hj]
        by_cases hneg : j < 0
        · rw [if_pos hneg]
        · rw [if_neg hneg]
          rcases hb0' with hb | hb
          · exact absurd hb hneg
          · rw [hb]
    · have hk0 : k ≠ 0 := by
        intro h0
        rw [h0, Nat.add_zero] at hbad
        exact hb0 hbad
      obtain ⟨k', rfl⟩ : ∃ k', k = k' + 1 := ⟨k - 1, by omega⟩
      cases hj : idxs.get? i₀ with
      | none => exact absurd (by simp only [badAt, hj]) hb0
      | some j =>
        have hb0' : ¬ (j < 0 ∨ dirs.get? j.toNat = none) := by
          intro hcontra
          exact hb0 (by simp only [badAt, hj]; exact hcontra)
        obtain ⟨hneg, hnone⟩ := not_or.mp hb0'
        cases hd : dirs.get? j.toNat with
        | none => exact absurd hd hnone
        | some d =>
          have hrec := ih (i₀ + 1)
            ⟨k', by simpa using hk, by
              rwa [show i₀ + (k' + 1) = i₀ + 1 + k' by omega] at hbad⟩
          simp only [zipFiles, hj, if_neg hneg, hd, hrec]

/-- If every iteration of the zipping loop is in bounds, the loop returns
one record per base name, reading position `i₀ + k` of the parallel
arrays for the `k`-th remaining base name. -/
theorem zipFiles_ok (dirs : List Bytes) (idxs : List Int) (dg : Option (List Bytes))
    (md : Option (List Nat)) (sz : Option (List Int)) (names : List Bytes) :
    ∀ (i₀ : Nat),
    (∀ k, k < names.length → ∃ j, idxs.get? (i₀ + k) = some j ∧ ¬ j < 0 ∧ j.toNat < dirs.length) →
    zipFiles dirs idxs dg md sz i₀ names =
      .ok ((List.range names.length).map fun k =>
        { Path := dirs.getD (idxs.getD (i₀ + k) 0).toNat [] ++ names.getD k []
          Mode := (md.getD []).getD (i₀ + k) 0
          SHA256 := (dg.getD []).getD (i₀ + k) []
          Size := (sz.getD []).getD (i₀ + k) 0 }) := by
  induction names with
  | nil => intro i₀ _; simp [zipFiles]
  | cons name rest ih =>
    intro i₀ hbound
    obtain ⟨j, hj, hneg, hlt⟩ := hbound 0 (by simp)
    rw [Nat.add_zero] at hj
    have hd : dirs.get? j.toNat = some (dirs.getD j.toNat []) :=
      get?_eq_some_getD dirs j.toNat [] hlt
    have hrec := ih (i₀ + 1) (fun k hk => by
      have hb := hbound (k + 1) (by simpa using Nat.succ_lt_succ hk)
      rwa [show i₀ + (k + 1) = i₀ + 1 + k by omega] at hb)
    have hidx : idxs[i₀]? = some j := by
      rw [← List.get?_eq_getElem?]
      exact hj
    simp only [zipFiles, hj, if_neg hneg, hd, hrec]
    congr 1
    simp only [List.length_cons]
    rw [List.range_succ_eq_map, List.map_cons, List.map_map]
    congr 1
    · simp [optBind_getD, hidx]
    · apply List.map_congr_left
      intro a _
      simp only [Function.comp_apply]
      rw [show i₀ + 1 + a = i₀ + (a + 1) by omega]
      simp [List.getD_cons_succ]

/-! Trailing-null trimming -/

theorem dropWhile_replicate_zero_append (k : Nat) (l : Bytes) :
    List.dropWhile (fun b => b == 0) (List.replicate k 0 ++ l) =
      List.dropWhile (fun b => b == 0) l := by
  induction k with
  | zero => simp
  | succ m ih => simp [List.replicate_succ, List.dropWhile_cons, ih]

theorem dropWhile_idem (p : Nat → Bool) (l : Bytes) :
    List.dropWhile p (List.dropWhile p l) = List.dropWhile p l := by
  induction l with
  | nil => rfl
  | cons a l ih =>
    by_cases h : p a
    · simp [List.dropWhile_cons, h, ih]
    · simp [List.dropWhile_cons, h]

theorem head?_dropWhile (p : Nat → Bool) (l : Bytes) :
    ∀ b, (List.dropWhile p l).head? = some b → p b = false := by
  induction l with
  | nil => intro b h; simp at h
  | cons a l ih =>
    intro b h
    by_cases hpa : p a
    · rw [List.dropWhile_cons, if_pos hpa] at h
      exact ih b h
    · rw [List.dropWhile_cons, if_neg hpa] at h
      simp only [List.head?_cons, Option.some.injEq] at h
      subst h
      exact Bool.eq_false_iff.mpr hpa

theorem takeWhile_zero_replicate (l : Bytes) :
    List.takeWhile (fun b => b == 0) l =
      List.replicate (List.takeWhile (fun b => b == 0) l).length 0 := by
  induction l with
  | nil => rfl
  | cons a l ih =>
    by_cases h : a = 0
    · subst h
      rw [List.takeWhile_cons]
      simpa [List.replicate_succ] using ih
    · rw [List.takeWhile_cons]
      simp [h]

theorem parseString_append_zeros (data : Bytes) (k : Nat) :
    parseString (parseString data ++ List.replicate k 0) = parseString data := by
  unfold parseString
  rw [List.reverse_append, List.reverse_replicate, List.reverse_reverse,
    dropWhile_replicate_zero_append, dropWhile_idem]

theorem parseString_reconstruct (data : Bytes) :
    data = parseString data ++ List.replicate (data.length - (parseString data).length) 0 := by
  have h1 := List.takeWhile_append_dropWhile (fun b => b == 0) data.reverse
  have h2 : (List.takeWhile (fun b => b == 0) data.reverse).length +
      (List.dropWhile (fun b => b == 0) data.reverse).length = data.length := by
    rw [← List.length_append, h1, List.length_reverse]
  conv_lhs => rw [← List.reverse_reverse data, ← h1]
  rw [List.reverse_append]
  unfold parseString
  congr 1
  rw [takeWhile_zero_replicate data.reverse, List.reverse_replicate]
  congr 1
  simp only [List.length_reverse]
  omega

theorem parseString_no_trailing_zero (data : Bytes) :
    ∀ b, (parseString data).getLast? = some b → ¬ b = 0 := by
  intro b h
  unfold parseString at h
  rw [List.getLast?_reverse] at h
  have hb := head?_dropWhile (fun x => x == 0) data.reverse b h
  simpa using hb

/-! Additional loop corollaries -/

theorem foldE_cons {σ : Type} (f : σ → IndexEntry → Except GoErr σ) (s : σ)
    (e : IndexEntry) (l : List IndexEntry) :
    foldE f s (e :: l) =
      match f s e with
      | .error er => .error er
      | .ok s' => foldE f s' l := rfl

theorem foldE_append_ok {σ : Type} (f : σ → IndexEntry → Except GoErr σ) (s s₁ : σ)
    (l₁ l₂ : List IndexEntry) (h : foldE f s l₁ = .ok s₁) :
    foldE f s (l₁ ++ l₂) = foldE f s₁ l₂ := by
  rw [foldE_append, h]

theorem foldE_append_inv {σ : Type} (f : σ → IndexEntry → Except GoErr σ) (s s'' : σ)
    (l₁ l₂ : List IndexEntry) (h : foldE f s (l₁ ++ l₂) = .ok s'') :
    ∃ s₁, foldE f s l₁ = .ok s₁ ∧ foldE f s₁ l₂ = .ok s'' := by
  rw [foldE_append] at h
  cases hf : foldE f s l₁ with
  | error er => rw [hf] at h; exact Except.noConfusion h
  | ok s₁ => rw [hf] at h; exact ⟨s₁, rfl, h⟩

theorem fileTags_not_scalarTags (t : Int) (h : t ∈ fileTags) : t ∉ scalarTags := by
  simp only [fileTags, List.mem_cons, List.not_mem_nil, or_false] at h
  rcases h with h | h | h | h | h | h <;> subst h <;> decide

/-! Example inputs (used by the concrete instantiations below) -/

/-- The spec's BASENAMES example entry: "a.txt\x00b.txt\x00". -/
def exB : IndexEntry :=
  { Tag := 1117, Typ := 8, Data := [97, 46, 116, 120, 116, 0, 98, 46, 116, 120, 116, 0],
    Length := 12 }

/-- The spec's DIRNAMES example entry: "/usr/\x00/etc/\x00". -/
def exD : IndexEntry :=
  { Tag := 1118, Typ := 8, Data := [47, 117, 115, 114, 47, 0, 47, 101, 116, 99, 47, 0],
    Length := 12 }

/-- The spec's DIRINDEXES example entry: [1, 0]. -/
def exI : IndexEntry := { Tag := 1116, Typ := 4, Data := [0, 0, 0, 1, 0, 0, 0, 0], Length := 8 }

/-- The spec's FILEMODES example entry: [0o644]. -/
def exM : IndexEntry := { Tag := 1030, Typ := 3, Data := [1, 164], Length := 2 }

/-- A DIRINDEXES entry whose first index (9) is out of range for `exD`. -/
def exIbad : IndexEntry := { Tag := 1116, Typ := 4, Data := [0, 0, 0, 9, 0, 0, 0, 0], Length := 8 }

/-- A DIRINDEXES entry with only one element (shorter than the two base names). -/
def exIshort : IndexEntry := { Tag := 1116, Typ := 4, Data := [0, 0, 0, 0], Length := 4 }

def exBase : List Bytes := [[97, 46, 116, 120, 116], [98, 46, 116, 120, 116]]

def exDirs : List Bytes := [[47, 117, 115, 114, 47], [47, 101, 116, 99, 47]]

/-- Arrays collected from `[exB, exD, exI, exM]`. -/
def stEx : FileArrays :=
  { allBasenames := some exBase, allDirs := some exDirs, allDirIndexes := some [1, 0],
    allFileDigests := none, allFileModes := some [420], allFileSizes := none }

/-- Arrays collected from `[exB, exD, exIbad]`. -/
def stBad : FileArrays :=
  { allBasenames := some exBase, allDirs := some exDirs, allDirIndexes := some [9, 0] }

/-- Arrays collected from `[exB, exD, exIshort]`. -/
def stShort : FileArrays :=
  { allBasenames := some exBase, allDirs := some exDirs, allDirIndexes := some [0] }

/-- A NAME entry decoding to "foo". -/
def exN1 : IndexEntry := { Tag := 1000, Typ := 6, Data := [102, 111, 111, 0], Length := 4 }

/-- A NAME entry decoding to "bar". -/
def exN2 : IndexEntry := { Tag := 1000, Typ := 6, Data := [98, 97, 114, 0], Length := 4 }

/-- A VERSION entry with declared type INT32 instead of STRING. -/
def exBadV : IndexEntry := { Tag := 1001, Typ := 4, Data := [], Length := 0 }

/-! The claims -/

/-- C7: `decodeInt32Array` returns exactly `byteLength / 4` big-endian signed
32-bit elements (no partial element when `byteLength` is not a multiple of 4),
and fails with a decode error exactly when the buffer is shorter than
`4 * (byteLength / 4)` bytes. -/
theorem parseInt32Array_element_count : ∀ (data : Bytes) (byteLength : Nat),
    parseInt32Array data byteLength =
      (if data.length < 4 * (byteLength / 4) then .error .decodeError
       else .ok ((List.range (byteLength / 4)).map fun i =>
         toSigned32 (beVal ((data.drop (4 * i)).take 4)))) ∧
    ∀ vs, parseInt32Array data byteLength = .ok vs → vs.length = byteLength / 4 := by
  intro data byteLength
  refine ⟨parseInt32Array_eq data byteLength, ?_⟩
  intro vs hvs
  rw [parseInt32Array_eq] at hvs
  split_ifs at hvs
  simp only [Except.ok.injEq] at hvs
  rw [← hvs]
  simp

theorem parseInt32Array_element_count_witness :
    parseInt32Array [0, 0, 0, 1, 0, 0, 0, 2, 255] 9 = .ok [1, 2] ∧
    ([(1 : Int), 2].length = 9 / 4) := by
  have h := parseInt32Array_element_count [0, 0, 0, 1, 0, 0, 0, 2, 255] 9
  have h1 : parseInt32Array [0, 0, 0, 1, 0, 0, 0, 2, 255] 9 = .ok [1, 2] := by
    rw [h.1]
    rfl
  exact ⟨h1, h.2 [1, 2] h1⟩

/-- C8: `decodeString` strips all trailing null bytes and only those, so
re-encoding the decoded string with any null padding and decoding again
yields the same string; the input is the decoded string followed by the
stripped nulls, and the decoded string never ends in a null byte. -/
theorem parseString_trailing_null_roundtrip : ∀ (data : Bytes) (k : Nat),
    parseString (parseString data ++ List.replicate k 0) = parseString data ∧
    data = parseString data ++ List.replicate (data.length - (parseString data).length) 0 ∧
    ∀ b, (parseString data).getLast? = some b → ¬ b = 0 :=
  fun data k => ⟨parseString_append_zeros data k, parseString_reconstruct data,
    parseString_no_trailing_zero data⟩

theorem parseString_trailing_null_roundtrip_witness :
    parseString (parseString [0, 104, 0] ++ List.replicate 3 0) = parseString [0, 104, 0] ∧
    ¬ (104 = 0) := by
  have h := parseString_trailing_null_roundtrip [0, 104, 0] 3
  exact ⟨h.1, h.2.2 104 (by decide)⟩

/-- C10: whenever `newPackage` fails, the caller receives the error and a nil
package record — never a partially populated record. -/
theorem newPackage_no_partial_result (entries : List IndexEntry) (er : GoErr)
    (h : (newPackage entries).2 = some er) : (newPackage entries).1 = none := by
  unfold newPackage at h ⊢
  cases hs : scalarPass {} entries with
  | error e2 => rfl
  | ok pkg =>
    cases hg : getFileInfo entries with
    | mk fs oe =>
      rw [hs, hg] at h
      cases oe with
      | none => simp at h
      | some e3 => rfl

theorem newPackage_no_partial_result_witness :
    (newPackage [exBadV]).1 = none :=
  newPackage_no_partial_result [exBadV] (.invalidTagType 1001) rfl

/-- C6: a SOURCERPM, LICENSE or VENDOR entry of STRING type whose decoded
value is the sentinel "(none)" sets the corresponding field to the empty
string; a NAME entry decoding to "(none)" sets the Name field to the literal
"(none)" unchanged. -/
theorem applyScalar_none_sentinel (e : IndexEntry) (pkg : PackageInfo)
    (htyp : e.Typ = 6) (hval : parseString e.Data = noneBytes) :
    (e.Tag = 1044 → applyScalar pkg e = .ok { pkg with SourceRpm := [] }) ∧
    (e.Tag = 1014 → applyScalar pkg e = .ok { pkg with License := [] }) ∧
    (e.Tag = 1011 → applyScalar pkg e = .ok { pkg with Vendor := [] }) ∧
    (e.Tag = 1000 → applyScalar pkg e = .ok { pkg with Name := noneBytes }) := by
  refine ⟨fun ht => ?_, fun ht => ?_, fun ht => ?_, fun ht => ?_⟩ <;>
    norm_num [applyScalar, ht, htyp, hval]

theorem applyScalar_none_sentinel_witness :
    applyScalar {} { Tag := 1044, Typ := 6, Data := noneBytes, Length := 6 } =
      .ok { SourceRpm := [] } ∧
    applyScalar {} { Tag := 1014, Typ := 6, Data := noneBytes, Length := 6 } =
      .ok { License := [] } ∧
    applyScalar {} { Tag := 1011, Typ := 6, Data := noneBytes, Length := 6 } =
      .ok { Vendor := [] } ∧
    applyScalar {} { Tag := 1000, Typ := 6, Data := noneBytes, Length := 6 } =
      .ok { Name := noneBytes } := by
  refine ⟨?_, ?_, ?_, ?_⟩
  · exact (applyScalar_none_sentinel _ {} rfl (by decide)).1 rfl
  · exact (applyScalar_none_sentinel _ {} rfl (by decide)).2.1 rfl
  · exact (applyScalar_none_sentinel _ {} rfl (by decide)).2.2.1 rfl
  · exact (applyScalar_none_sentinel _ {} rfl (by decide)).2.2.2 rfl

/-- Modelled from the spec (§4.3, pass 2), for comparison with
`getFileInfo`: the i-th record has path `dirnames[dirindexes[i]] +
basenames[i]` (plain concatenation), and digest / mode / size equal to the
i-th element of the corresponding array when it has at least `i + 1`
elements, else the empty string / 0 / 0. -/
def specZip (dirs : List Bytes) (idxs : List Int) (dg : List Bytes) (md : List Nat)
    (sz : List Int) (basenames : List Bytes) : List FileInfo :=
  (List.range basenames.length).map fun i =>
    { Path := dirs.getD (idxs.getD i 0).toNat [] ++ basenames.getD i []
      Mode := md.getD i 0
      SHA256 := dg.getD i []
      Size := sz.getD i 0 }

/-- Unfolding of `getFileInfo` when collection succeeds and both structural
arrays are present: the result is that of the zipping loop. -/
theorem getFileInfo_eq_zip (entries : List IndexEntry) (st : FileArrays)
    (dirs : List Bytes) (idxs : List Int)
    (hc : collectFileArrays {} entries = .ok st)
    (hd : st.allDirs = some dirs) (hi : st.allDirIndexes = some idxs) :
    getFileInfo entries =
      match zipFiles dirs idxs st.allFileDigests st.allFileModes st.allFileSizes 0
          (st.allBasenames.getD []) with
      | .error er => (none, some er)
      | .ok files => (some files, none) := by
  unfold getFileInfo
  rw [hc]
  dsimp only
  rw [hd, hi]

/-- C4: an entry sequence with no DIRNAMES entry or no DIRINDEXES entry
(each entry well-formed, e.g. a well-formed BASENAMES entry may be present)
yields an empty file list and no error. -/
theorem getFileInfo_empty_of_missing_structural_array (entries : List IndexEntry)
    (hwf : ∀ x ∈ entries, wellFormed x)
    (habs : (∀ x ∈ entries, x.Tag ≠ 1118) ∨ (∀ x ∈ entries, x.Tag ≠ 1116)) :
    getFileInfo entries = (some [], none) := by
  obtain ⟨st, hst⟩ := foldE_ok_of_all collectStep entries
    (fun e he s => collectStep_ok_of_wellFormed e (hwf e he) s) {}
  have hcol : collectFileArrays {} entries = .ok st := hst
  unfold getFileInfo
  rw [hcol]
  dsimp only
  rcases habs with h18 | h16
  · have hdirs : st.allDirs = none := by
      have hpres := foldE_preserve collectStep (fun s => s.allDirs) (fun e => e.Tag ≠ 1118)
        (fun s s' e hP hok => (collectStep_frame s s' e hok).1 hP) entries {} st h18 hst
      simpa using hpres
    rw [hdirs]
  · have hidxs : st.allDirIndexes = none := by
      have hpres := foldE_preserve collectStep (fun s => s.allDirIndexes) (fun e => e.Tag ≠ 1116)
        (fun s s' e hP hok => (collectStep_frame s s' e hok).2 hP) entries {} st h16 hst
      simpa using hpres
    rw [hidxs]
    cases st.allDirs <;> rfl

theorem getFileInfo_empty_of_missing_structural_array_witness :
    getFileInfo [exB] = (some [], none) :=
  getFileInfo_empty_of_missing_structural_array [exB] (by decide) (Or.inl (by decide))

/-- C1: when DIRNAMES and DIRINDEXES are present and some directory index
for a position inside the base-name list is outside the bounds of the
directory-name table, `getFileInfo` ends in the index-out-of-range failure
(the Go runtime panic of the unchecked indexing, modelled as the
`indexOutOfRange` outcome) and no other outcome; hence so does `newPackage`
once its scalar pass succeeds. -/
theorem getFileInfo_indexOutOfRange_of_bad_dirindex (entries : List IndexEntry)
    (st : FileArrays) (dirs : List Bytes) (idxs : List Int)
    (hc : collectFileArrays {} entries = .ok st)
    (hd : st.allDirs = some dirs) (hi : st.allDirIndexes = some idxs)
    (hbad : ∃ i, i < (st.allBasenames.getD []).length ∧ i < idxs.length ∧
      ¬ (0 ≤ idxs.getD i 0 ∧ (idxs.getD i 0).toNat < dirs.length)) :
    getFileInfo entries = (none, some .indexOutOfRange) ∧
    ∀ pkg, scalarPass {} entries = .ok pkg →
      newPackage entries = (none, some .indexOutOfRange) := by
  obtain ⟨i, hib, hii, hbnd⟩ := hbad
  have hbadAt : badAt dirs idxs (0 + i) := by
    rw [Nat.zero_add]
    unfold badAt
    rw [get?_eq_some_getD idxs i 0 hii]
    by_cases hneg : idxs.getD i 0 < 0
    · exact Or.inl hneg
    · refine Or.inr ?_
      have hlen : dirs.length ≤ (idxs.getD i 0).toNat := by
        rcases not_and_or.mp hbnd with h1 | h2
        · exact absurd (not_lt.mp hneg) h1
        · exact not_lt.mp h2
      exact List.get?_len_le hlen
  have hzip := zipFiles_err dirs idxs st.allFileDigests st.allFileModes st.allFileSizes
    (st.allBasenames.getD []) 0 ⟨i, hib, hbadAt⟩
  have hgfi : getFileInfo entries = (none, some .indexOutOfRange) := by
    rw [getFileInfo_eq_zip entries st dirs idxs hc hd hi, hzip]
  refine ⟨hgfi, ?_⟩
  intro pkg hs
  unfold newPackage
  rw [hs, hgfi]

theorem getFileInfo_indexOutOfRange_of_bad_dirindex_witness :
    getFileInfo [exB, exD, exIbad] = (none, some .indexOutOfRange) :=
  (getFileInfo_indexOutOfRange_of_bad_dirindex [exB, exD, exIbad] stBad exDirs [9, 0]
    rfl rfl rfl ⟨0, by decide, by decide, by decide⟩).1

/-- C2: when DIRNAMES and DIRINDEXES are present and every directory index
for a position inside the base-name list is in bounds, `getFileInfo`
returns exactly one record per base name, in base-name order, as described
by the spec's zipping rule `specZip` (path is plain concatenation, and
digest / mode / size default when the auxiliary array is too short). -/
theorem getFileInfo_zips_parallel_arrays (entries : List IndexEntry)
    (st : FileArrays) (dirs : List Bytes) (idxs : List Int)
    (hc : collectFileArrays {} entries = .ok st)
    (hd : st.allDirs = some dirs) (hi : st.allDirIndexes = some idxs)
    (hlen : (st.allBasenames.getD []).length ≤ idxs.length)
    (hbound : ∀ i, i < (st.allBasenames.getD []).length →
      0 ≤ idxs.getD i 0 ∧ (idxs.getD i 0).toNat < dirs.length) :
    getFileInfo entries =
      (some (specZip dirs idxs (st.allFileDigests.getD []) (st.allFileModes.getD [])
        (st.allFileSizes.getD []) (st.allBasenames.getD [])), none) := by
  have hz := zipFiles_ok dirs idxs st.allFileDigests st.allFileModes st.allFileSizes
    (st.allBasenames.getD []) 0 (fun k hk => by
      obtain ⟨h0, hlt⟩ := hbound k hk
      refine ⟨idxs.getD k 0, ?_, not_lt.mpr h0, hlt⟩
      rw [Nat.zero_add]
      exact get?_eq_some_getD idxs k 0 (lt_of_lt_of_le hk hlen))
  rw [getFileInfo_eq_zip entries st dirs idxs hc hd hi, hz]
  unfold specZip
  simp only [Nat.zero_add]

theorem getFileInfo_zips_parallel_arrays_witness :
    getFileInfo [exB, exD, exI, exM] =
      (some [{ Path := [47, 101, 116, 99, 47, 97, 46, 116, 120, 116], Mode := 420,
               SHA256 := [], Size := 0 },
             { Path := [47, 117, 115, 114, 47, 98, 46, 116, 120, 116], Mode := 0,
               SHA256 := [], Size := 0 }], none) := by
  have h := getFileInfo_zips_parallel_arrays [exB, exD, exI, exM] stEx exDirs [1, 0]
    rfl rfl rfl (by decide) (by decide)
  rw [h]
  rfl

/-- C5: the zipping loop performs no bounds check on the directory-index
array itself: when that array is shorter than the base-name array the loop
reads it out of range and ends in the index-out-of-range failure; the
operation succeeds precisely under the unchecked precondition that the
directory-index array covers every base name and addresses only existing
directory names. -/
theorem zipping_unchecked_dirindexes_bounds (entries : List IndexEntry)
    (st : FileArrays) (dirs : List Bytes) (idxs : List Int)
    (hc : collectFileArrays {} entries = .ok st)
    (hd : st.allDirs = some dirs) (hi : st.allDirIndexes = some idxs) :
    (idxs.length < (st.allBasenames.getD []).length →
      getFileInfo entries = (none, some .indexOutOfRange)) ∧
    ((st.allBasenames.getD []).length ≤ idxs.length →
      (∀ i, i < (st.allBasenames.getD []).length →
        0 ≤ idxs.getD i 0 ∧ (idxs.getD i 0).toNat < dirs.length) →
      ∃ files, getFileInfo entries = (some files, none)) := by
  constructor
  · intro hshort
    have hbadAt : badAt dirs idxs (0 + idxs.length) := by
      rw [Nat.zero_add]
      unfold badAt
      rw [List.get?_len_le (le_refl idxs.length)]
      exact trivial
    have hzip := zipFiles_err dirs idxs st.allFileDigests st.allFileModes st.allFileSizes
      (st.allBasenames.getD []) 0 ⟨idxs.length, hshort, hbadAt⟩
    rw [getFileInfo_eq_zip entries st dirs idxs hc hd hi, hzip]
  · intro hlen hbound
    have hz := zipFiles_ok dirs idxs st.allFileDigests st.allFileModes st.allFileSizes
      (st.allBasenames.getD []) 0 (fun k hk => by
        obtain ⟨h0, hlt⟩ := hbound k hk
        refine ⟨idxs.getD k 0, ?_, not_lt.mpr h0, hlt⟩
        rw [Nat.zero_add]
        exact get?_eq_some_getD idxs k 0 (lt_of_lt_of_le hk hlen))
    exact ⟨_, by rw [getFileInfo_eq_zip entries st dirs idxs hc hd hi, hz]⟩

theorem zipping_unchecked_dirindexes_bounds_witness :
    getFileInfo [exB, exD, exIshort] = (none, some .indexOutOfRange) :=
  (zipping_unchecked_dirindexes_bounds [exB, exD, exIshort] stShort exDirs [0]
    rfl rfl rfl).1 (by decide)

/-- C3: a sequence containing one entry with a recognized tag whose declared
type differs from the catalog's expected type makes the whole decode fail
with the invalid-tag-type error for that tag, all other entries being
well-formed. -/
theorem newPackage_invalidTagType_of_type_mismatch (l₁ l₂ : List IndexEntry) (e : IndexEntry)
    (h₁ : ∀ x ∈ l₁, wellFormed x) (h₂ : ∀ x ∈ l₂, wellFormed x)
    (hrec : e.Tag ∈ recognizedTags) (hbad : e.Typ ≠ expectedTyp e.Tag) :
    newPackage (l₁ ++ e :: l₂) = (none, some (.invalidTagType e.Tag)) := by
  rw [recognizedTags, List.mem_append] at hrec
  rcases hrec with hs | hf
  · have hfail : scalarPass {} (l₁ ++ e :: l₂) = .error (.invalidTagType e.Tag) := by
      obtain ⟨p₁, hp₁⟩ := foldE_ok_of_all applyScalar l₁
        (fun x hx s => applyScalar_ok_of_wellFormed x (h₁ x hx) s) {}
      unfold scalarPass
      rw [foldE_append_ok applyScalar {} p₁ l₁ (e :: l₂) hp₁, foldE_cons,
        applyScalar_badTyp p₁ e hs hbad]
    unfold newPackage
    rw [hfail]
  · obtain ⟨pkg, hpkg⟩ : ∃ pkg, scalarPass {} (l₁ ++ e :: l₂) = .ok pkg := by
      apply foldE_ok_of_all
      intro x hx s
      rcases List.mem_append.mp hx with hx1 | hx2
      · exact applyScalar_ok_of_wellFormed x (h₁ x hx1) s
      · rcases List.mem_cons.mp hx2 with rfl | hx3
        · exact ⟨s, applyScalar_not_scalar s x (fileTags_not_scalarTags x.Tag hf)⟩
        · exact applyScalar_ok_of_wellFormed x (h₂ x hx3) s
    have hgfi : getFileInfo (l₁ ++ e :: l₂) = (none, some (.invalidTagType e.Tag)) := by
      have hcolfail : collectFileArrays {} (l₁ ++ e :: l₂) = .error (.invalidTagType e.Tag) := by
        obtain ⟨s₁, hs₁⟩ := foldE_ok_of_all collectStep l₁
          (fun x hx s => collectStep_ok_of_wellFormed x (h₁ x hx) s) {}
        unfold collectFileArrays
        rw [foldE_append_ok collectStep {} s₁ l₁ (e :: l₂) hs₁, foldE_cons,
          collectStep_badTyp s₁ e hf hbad]
      unfold getFileInfo
      rw [hcolfail]
    unfold newPackage
    rw [hpkg, hgfi]

theorem newPackage_invalidTagType_of_type_mismatch_witness :
    newPackage [exN1, exBadV] = (none, some (.invalidTagType 1001)) :=
  newPackage_invalidTagType_of_type_mismatch [exN1] [] exBadV
    (by decide) (by simp) (by decide) (by decide)

/-- C9: when several well-typed entries share a recognized scalar tag, the
field of the successfully decoded package record equals the value assigned
by the last such entry (last-write-wins). -/
theorem newPackage_last_write_wins (l₁ l₂ : List IndexEntry) (e : IndexEntry)
    (pkg : PackageInfo) (hscalar : e.Tag ∈ scalarTags)
    (_hdup : ∃ x ∈ l₁, x.Tag = e.Tag ∧ x.Typ = expectedTyp x.Tag)
    (hlast : ∀ x ∈ l₂, x.Tag ≠ e.Tag)
    (hok : (newPackage (l₁ ++ e :: l₂)).1 = some pkg) :
    fieldOf e.Tag pkg = assignedValue e := by
  unfold newPackage at hok
  cases hs : scalarPass {} (l₁ ++ e :: l₂) with
  | error er => rw [hs] at hok; exact Option.noConfusion hok
  | ok pkg₀ =>
    rw [hs] at hok
    cases hg : getFileInfo (l₁ ++ e :: l₂) with
    | mk fs oe =>
      rw [hg] at hok
      cases oe with
      | some er => exact Option.noConfusion hok
      | none =>
        have hpkg : pkg = { pkg₀ with Files := fs.getD [] } := by
          simpa using hok.symm
        subst hpkg
        rw [fieldOf_update_files]
        obtain ⟨p₁, _hp₁, hrest⟩ := foldE_append_inv applyScalar {} pkg₀ l₁ (e :: l₂) hs
        obtain ⟨p₂, hp₂, hp₃⟩ := foldE_cons_ok applyScalar p₁ e l₂ pkg₀ hrest
        have hpres : fieldOf e.Tag pkg₀ = fieldOf e.Tag p₂ :=
          foldE_preserve applyScalar (fieldOf e.Tag) (fun x => x.Tag ≠ e.Tag)
            (fun s s' x hP hok' => by
              rcases applyScalar_cases s s' x hok' with ⟨_, rfl⟩ | ⟨_, _, hframe⟩
              · rfl
              · exact hframe e.Tag (fun hEq => hP hEq.symm)) l₂ p₂ pkg₀ hlast hp₃
        rw [hpres]
        rcases applyScalar_cases p₁ p₂ e hp₂ with ⟨hnot, _⟩ | ⟨_, hset, _⟩
        · exact absurd hscalar hnot
        · exact hset

theorem newPackage_last_write_wins_witness :
    fieldOf 1000 { Name := [98, 97, 114] } = assignedValue exN2 ∧
    (newPackage [exN1, exN2]).1 = some { Name := [98, 97, 114] } := by
  have hp : (newPackage [exN1, exN2]).1 = some { Name := [98, 97, 114] } := by rfl
  refine ⟨?_, hp⟩
  exact newPackage_last_write_wins [exN1] [] exN2 { Name := [98, 97, 114] }
    (by decide) ⟨exN1, by decide, by decide, by decide⟩ (by simp) hp

end RpmDb
